import Mathlib

/-!
Verification of the Talos watcher / REST client subsystem
(`talos_watcher_fn.py` and `providers/talos_rest.py`).

The Python code is shallowly embedded: JSON dictionary records become a
structure of optional fields, Python truthiness of strings and JSON
literals is made explicit, and the mutable per-watcher state
(`filled_announced`, `backoff`, reconnect bookkeeping) becomes explicit
state passing over a step function.
-/

namespace Talos

/-! ## Python-style truthiness helpers -/

/-- Python truthiness of an optional string: `None` and `""` are falsy. -/
def isTruthyS : Option String → Bool
  | none => false
  | some s => s ≠ ""

/-- Embeds a Python chain `a or b or ...` over string-valued dictionary
lookups: the first truthy (present and non-empty) entry, if any. -/
def firstTruthy : List (Option String) → Option String
  | [] => none
  | none :: rest => firstTruthy rest
  | some s :: rest => if s = "" then firstTruthy rest else some s

/-- Embeds Python `x or dflt` for a string-valued lookup `x`. -/
def pyStrOr (x : Option String) (dflt : String) : String :=
  match x with
  | none => dflt
  | some s => if s = "" then dflt else s

/-- A JSON literal as found in the numeric-ish fields of an execution
report or order row: either a string or a number (JSON numbers are
decimal, modelled exactly as rationals). -/
inductive JLit where
  | s (v : String)
  | n (v : Rat)
deriving DecidableEq, Repr

/-- Python truthiness of a JSON literal: `0`, `0.0` and `""` are falsy. -/
def JLit.truthy : JLit → Bool
  | .s v => v ≠ ""
  | .n v => v ≠ 0

/-- Embeds Python `x or 0` for a JSON-literal-valued lookup `x`. -/
def jlitOrZero : Option JLit → JLit
  | none => .n 0
  | some j => if j.truthy then j else .n 0

/-- Value of a list of decimal digit characters (most significant first). -/
def natOfDigits (l : List Char) : Nat :=
  l.foldl (fun a c => a * 10 + (c.toNat - 48)) 0

/-- Parses an unsigned decimal literal (digits with an optional single
decimal point) into an exact rational. -/
def parseDecCore (l : List Char) : Option Rat :=
  let ip := l.takeWhile (· ≠ '.')
  let rest := l.dropWhile (· ≠ '.')
  match rest with
  | [] =>
    if ip ≠ [] ∧ ip.all Char.isDigit then some (natOfDigits ip) else none
  | _ :: fp =>
    if (ip ≠ [] ∨ fp ≠ []) ∧ ip.all Char.isDigit ∧ fp.all Char.isDigit then
      some ((natOfDigits ip : Rat) + (natOfDigits fp : Rat) / ((10 : Rat) ^ fp.length))
    else none

/-- Models Python `float(s)` on the plain signed decimal literals used by
the venue's quantity fields; other forms (exponents, `inf`, `nan`,
surrounding whitespace) are treated as parse failures. -/
def parseFloat? (s : String) : Option Rat :=
  match s.data with
  | '-' :: rest => (parseDecCore rest).map (fun v => -v)
  | '+' :: rest => parseDecCore rest
  | l => parseDecCore l

/-- Models Python `float(x)` on a JSON literal. -/
def pyFloat? : JLit → Option Rat
  | .n v => some v
  | .s v => parseFloat? v

/-! ## String helpers shared by the notification templates -/

/-- Expansion of one character under `_md_escape`. -/
def md_escape_char (c : Char) : List Char :=
  if c ∈ "_*[]`".data then ['\\', c] else [c]

/-- Embeds `_md_escape` on a present string. The source applies five
sequential single-character `str.replace` calls whose replacement texts
never contain another pattern character, which is equivalent to this
character-wise expansion. -/
def md_escape (s : String) : String :=
  String.mk ((s.data.map md_escape_char).flatten)

/-- Substring test over character lists (used to state which notification
texts carry the literal `[snapshot]` marker). -/
def containsSub (pat : List Char) : List Char → Bool
  | [] => pat.isEmpty
  | c :: rest => pat.isPrefixOf (c :: rest) || containsSub pat rest

/-- Whether a notification text contains the literal snapshot marker. -/
def containsMark (s : String) : Bool :=
  containsSub "[snapshot]".data s.data

/-- Whitespace characters removed by Python `str.strip()` (the ASCII
ones; the venue's credential and status strings are ASCII). -/
def pySpace (c : Char) : Bool :=
  c ∈ [' ', '\t', '\n', '\r', '\x0b', '\x0c']

/-- Embeds Python `str.strip()`. -/
def pyStrip (s : String) : String :=
  String.mk (((s.data.dropWhile pySpace).reverse.dropWhile pySpace).reverse)

/-- ASCII uppercase of one character. -/
def pyUpperChar (c : Char) : Char :=
  if 'a' ≤ c ∧ c ≤ 'z' then Char.ofNat (c.toNat - 32) else c

/-- Embeds Python `str.upper()` restricted to ASCII (the user names,
account names and HTTP methods this code uppercases are ASCII; the
claims about case-insensitivity are stated up to ASCII case). -/
def pyUpper (s : String) : String :=
  String.mk (s.data.map pyUpperChar)

/-! ## SHA-256, HMAC and URL-safe base64

The two signing helpers call the Python standard library
(`hashlib.sha256`, `hmac.new`, `base64.urlsafe_b64encode`); those are
embedded here in full over byte lists (`List Nat`, each element < 256),
with 32-bit words as `Nat` reduced mod `2 ^ 32`. -/

/-- Reduce to a 32-bit word. -/
def w32 (n : Nat) : Nat := n % 4294967296

/-- Right rotation of a 32-bit word. -/
def rotr32 (x n : Nat) : Nat := w32 ((x >>> n) + ((x % 2 ^ n) * 2 ^ (32 - n)))

def bigS0 (x : Nat) : Nat := rotr32 x 2 ^^^ rotr32 x 13 ^^^ rotr32 x 22

def bigS1 (x : Nat) : Nat := rotr32 x 6 ^^^ rotr32 x 11 ^^^ rotr32 x 25

def smallS0 (x : Nat) : Nat := rotr32 x 7 ^^^ rotr32 x 18 ^^^ (x >>> 3)

def smallS1 (x : Nat) : Nat := rotr32 x 17 ^^^ rotr32 x 19 ^^^ (x >>> 10)

def chF (x y z : Nat) : Nat := (x &&& y) ^^^ ((x ^^^ 4294967295) &&& z)

def majF (x y z : Nat) : Nat := (x &&& y) ^^^ (x &&& z) ^^^ (y &&& z)

/-- The SHA-256 round constants (FIPS 180-4, written in decimal). -/
def sha256K : List Nat :=
  [1116352408, 1899447441, 3049323471, 3921009573, 961987163, 1508970993,
   2453635748, 2870763221, 3624381080, 310598401, 607225278, 1426881987,
   1925078388, 2162078206, 2614888103, 3248222580, 3835390401, 4022224774,
   264347078, 604807628, 770255983, 1249150122, 1555081692, 1996064986,
   2554220882, 2821834349, 2952996808, 3210313671, 3336571891, 3584528711,
   113926993, 338241895, 666307205, 773529912, 1294757372, 1396182291,
   1695183700, 1986661051, 2177026350, 2456956037, 2730485921, 2820302411,
   3259730800, 3345764771, 3516065817, 3600352804, 4094571909, 275423344,
   430227734, 506948616, 659060556, 883997877, 958139571, 1322822218,
   1537002063, 1747873779, 1955562222, 2024104815, 2227730452, 2361852424,
   2428436474, 2756734187, 3204031479, 3329325298]

/-- The SHA-256 initial hash value (FIPS 180-4, written in decimal). -/
def sha256IV : List Nat :=
  [1779033703, 3144134277, 1013904242, 2773480762,
   1359893119, 2600822924, 528734635, 1541459225]

/-- Big-endian bytes to 32-bit words. -/
def bytesToWords : List Nat → List Nat
  | a :: b :: c :: d :: rest => (((a * 256 + b) * 256 + c) * 256 + d) :: bytesToWords rest
  | _ => []

/-- Extend the 16-word message schedule by the given number of words. -/
def extendW (w : List Nat) : Nat → List Nat
  | 0 => w
  | n + 1 =>
    let t := w.length
    let nw := w32 (w.getD (t - 16) 0 + smallS0 (w.getD (t - 15) 0) +
      w.getD (t - 7) 0 + smallS1 (w.getD (t - 2) 0))
    extendW (w ++ [nw]) n

/-- One SHA-256 round on the eight-word working state. -/
def roundStep (st : List Nat) (kw : Nat × Nat) : List Nat :=
  match st with
  | [a, b, c, d, e, f, g, h] =>
    let t1 := w32 (h + bigS1 e + chF e f g + kw.1 + kw.2)
    let t2 := w32 (bigS0 a + majF a b c)
    [w32 (t1 + t2), a, b, c, w32 (d + t1), e, f, g]
  | other => other

/-- Compress one 64-byte block into the hash value. -/
def sha256Compress (h : List Nat) (block : List Nat) : List Nat :=
  let ws := extendW (bytesToWords block) 48
  let st := (sha256K.zip ws).foldl roundStep h
  (h.zip st).map (fun p => w32 (p.1 + p.2))

/-- Big-endian encoding of a value in the given number of bytes. -/
def natToBytesBE : Nat → Nat → List Nat
  | 0, _ => []
  | n + 1, v => natToBytesBE n (v / 256) ++ [v % 256]

/-- SHA-256 message padding: `0x80`, zeros to 56 mod 64, 64-bit bit length. -/
def sha256Pad (msg : List Nat) : List Nat :=
  msg ++ [128] ++ List.replicate ((64 - (msg.length + 9) % 64) % 64) 0 ++
    natToBytesBE 8 (msg.length * 8)

/-- Fold the compression function over the given number of 64-byte blocks. -/
def sha256Blocks : Nat → List Nat → List Nat → List Nat
  | 0, _, h => h
  | n + 1, m, h => sha256Blocks n (m.drop 64) (sha256Compress h (m.take 64))

/-- SHA-256 digest (32 bytes) of a byte string. -/
def sha256 (msg : List Nat) : List Nat :=
  let p := sha256Pad msg
  ((sha256Blocks (p.length / 64) p sha256IV).map (natToBytesBE 4)).flatten

/-- HMAC-SHA256 (RFC 2104, block size 64) as computed by `hmac.new(key,
msg, hashlib.sha256).digest()`. -/
def hmacSha256 (key msg : List Nat) : List Nat :=
  let k0 := if 64 < key.length then sha256 key else key
  let kp := k0 ++ List.replicate (64 - k0.length) 0
  sha256 ((kp.map (· ^^^ 92)) ++ sha256 ((kp.map (· ^^^ 54)) ++ msg))

/-- The URL-safe base64 alphabet. -/
def b64Char (n : Nat) : Char :=
  if n < 26 then Char.ofNat (65 + n)
  else if n < 52 then Char.ofNat (97 + (n - 26))
  else if n < 62 then Char.ofNat (48 + (n - 52))
  else if n = 62 then '-' else '_'

/-- Base64 encoding of a byte list in three-byte groups, URL-safe
alphabet, with `=` padding. -/
def b64Chunks : List Nat → List Char
  | a :: b :: c :: rest =>
    let v := (a * 256 + b) * 256 + c
    b64Char (v >>> 18) :: b64Char ((v >>> 12) &&& 63) :: b64Char ((v >>> 6) &&& 63) ::
      b64Char (v &&& 63) :: b64Chunks rest
  | [a, b] =>
    [b64Char (a >>> 2), b64Char (((a &&& 3) <<< 4) ||| (b >>> 4)), b64Char ((b &&& 15) <<< 2), '=']
  | [a] =>
    [b64Char (a >>> 2), b64Char ((a &&& 3) <<< 4), '=', '=']
  | [] => []

/-- Embeds `base64.urlsafe_b64encode(...).decode()`. -/
def b64urlEncode (bytes : List Nat) : String :=
  String.mk (b64Chunks bytes)

/-- Embeds Python `.encode("ascii")`: byte string for an all-ASCII input,
failure (a raised `UnicodeEncodeError`) otherwise. -/
def asciiBytes? (s : String) : Option (List Nat) :=
  if s.data.all (fun c => c.toNat < 128) then some (s.data.map Char.toNat) else none

/-- The shared signing core of both clients: URL-safe padded base64 of
HMAC-SHA256 over the ASCII-encoded secret and payload. -/
def signB64 (secret payload : String) : Option String :=
  match asciiBytes? secret, asciiBytes? payload with
  | some k, some m => some (b64urlEncode (hmacSha256 k m))
  | _, _ => none

/-! ## The two request signers -/

/-- Embeds the canonical-string construction of `_sign_headers`
(`providers/talos_rest.py`): `[method.upper(), ts, host, path]` with the
query appended exactly when it is a non-empty string. -/
def restPayload (method ts host path query : String) : String :=
  String.intercalate "\n"
    (if query = "" then [pyUpper method, ts, host, path]
     else [pyUpper method, ts, host, path, query])

/-- Embeds the `TALOS-SIGN` value computed by `_sign_headers`
(`providers/talos_rest.py`), with the call-time timestamp passed
explicitly. -/
def sign_headers_sign (host method path query secret ts : String) : Option String :=
  signB64 secret (restPayload method ts host path query)

/-- Embeds the `TALOS-SIGN` value computed by `_headers`
(`talos_watcher_fn.py`), with the call-time timestamp passed explicitly
and the websocket URL already split by `urlparse` into its network
location and path (the function's only uses of the URL). The source
strips the secret and substitutes `"/ws/v1"` for an empty path. -/
def headers_sign (netloc path secret ts : String) : Option String :=
  let secret := pyStrip secret
  let path := if path = "" then "/ws/v1" else path
  signB64 secret (String.intercalate "\n" ["GET", ts, netloc, path])

/-- Modelled from the spec: section 4.1's signing contract, stated in the
spec's own words. Canonical string = newline-joined `[METHOD, TIMESTAMP,
HOST, PATH]` with `QUERY` appended as a fifth line only when a non-empty
query string is present; signature = URL-safe padded base64 of
HMAC-SHA256(secret, canonical string), secret and canonical string both
encoded as ASCII. -/
def sign_spec (method ts host path query secret : String) : Option String :=
  let canonical := String.intercalate "\n"
    ([method, ts, host, path] ++ if query = "" then [] else [query])
  match asciiBytes? secret, asciiBytes? canonical with
  | some k, some m => some (b64urlEncode (hmacSha256 k m))
  | _, _ => none

/-! ## Records

A JSON dictionary (one execution-report data element, or one REST order
row) is embedded as a structure of optional fields: `none` models an
absent key, matching `d.get(key)` returning `None`. -/

structure Rec where
  execType : Option String := none
  ordStatus : Option String := none
  side : Option String := none
  symbol : Option String := none
  orderID : Option String := none
  orderId : Option String := none
  idKey : Option String := none
  accountName : Option String := none
  subAccount : Option String := none
  tradingAccountName : Option String := none
  account : Option String := none
  requestUser : Option String := none
  customerUser : Option String := none
  user : Option String := none
  text : Option String := none
  cancelReason : Option String := none
  comments : Option String := none
  orderQty : Option JLit := none
  avgPx : Option JLit := none
  lastPx : Option JLit := none
  lastQty : Option JLit := none
  cumQty : Option JLit := none
  leavesQty : Option JLit := none
deriving DecidableEq, Repr

/-- Embeds `d.get("AccountName") or d.get("SubAccount") or
d.get("TradingAccountName") or d.get("Account")`. -/
def eventAcctOf (d : Rec) : Option String :=
  firstTruthy [d.accountName, d.subAccount, d.tradingAccountName, d.account]

/-- Embeds `d.get("RequestUser") or d.get("CustomerUser") or
d.get("User") or ""` (both the stream watcher and the REST client use
this chain). -/
def userOf (d : Rec) : String :=
  (firstTruthy [d.requestUser, d.customerUser, d.user]).getD ""

/-- Embeds `d.get("Symbol") or "-"`. -/
def symOf (d : Rec) : String := pyStrOr d.symbol "-"

/-- Embeds `oid = d.get("OrderID") or "-"` in the stream watcher. -/
def oidOf (d : Rec) : String := pyStrOr d.orderID "-"

/-! ## The stream classifier (`_talos_loop`, inner per-event code) -/

/-- Per-watcher filter configuration, as prepared at the top of
`_talos_loop`: `exclude_upper = {u.upper() for u in exclude_users}` and
`filter_upper = {s.upper() for s in subaccount_filter}` (the Python sets
are modelled as lists; only membership is used). -/
structure WCfg where
  filterUpper : List String := []
  excludeUpper : List String := []
  showPerExecFill : Bool := false
deriving DecidableEq, Repr

/-- Builds a `WCfg` the way `_talos_loop` does from its raw arguments. -/
def mkWCfg (excludeUsers subaccountFilter : List String) (showPerExecFill : Bool) : WCfg :=
  { filterUpper := subaccountFilter.map pyUpper
    excludeUpper := excludeUsers.map pyUpper
    showPerExecFill := showPerExecFill }

/-- The notifications the per-event code can emit, carrying the data
interpolated into each message's first line plus the order id. The
`snapshot` flag records the `initial` interpolation `' [snapshot]' if
initial else ''`; the New-order template has no such fragment, so its
constructor carries no flag. -/
inductive Notif where
  | newOrder (learnedAcct : Option String) (sym oid : String)
  | cancelled (snapshot : Bool) (sym oid : String) (reason : Option String)
  | fill (snapshot : Bool) (sym oid : String)
  | filled (snapshot : Bool) (sym oid : String)
  | connected (acct : String)
deriving DecidableEq, Repr

/-- The kind of a notification. -/
inductive NKind where
  | newK | cancelK | fillK | filledK | connK
deriving DecidableEq, Repr

def Notif.kind : Notif → NKind
  | .newOrder .. => .newK
  | .cancelled .. => .cancelK
  | .fill .. => .fillK
  | .filled .. => .filledK
  | .connected .. => .connK

/-- The snapshot flag a notification carries, if its template has the
`[snapshot]` fragment. -/
def Notif.snapFlag : Notif → Option Bool
  | .cancelled b .. => some b
  | .fill b .. => some b
  | .filled b .. => some b
  | _ => none

/-- The interpolation `' [snapshot]' if initial else ''`. -/
def snapMark (b : Bool) : String := if b then " [snapshot]" else ""

/-- The string interpolated for the learned account label:
`_md_escape(learned_acct) if learned_acct else '-'`. -/
def laShown (la : Option String) : String :=
  match la with
  | some s => if s = "" then "-" else md_escape s
  | none => "-"

/-- First line of each notification, exactly as the source's f-strings
build it (the remaining lines carry no occurrence of `initial`). -/
def Notif.headerText : Notif → String
  | .newOrder la _ _ => "🆕 *New order* - " ++ laShown la
  | .cancelled b sym _ _ => "🚫 *Order Cancelled*" ++ snapMark b ++ " — " ++ md_escape sym
  | .fill b sym _ => "✅ *Fill*" ++ snapMark b ++ " — " ++ md_escape sym
  | .filled b sym _ => "🎯 *Order Filled*" ++ snapMark b ++ " — " ++ md_escape sym
  | .connected a => "🟢 *Connected to Talos* — " ++ md_escape a

/-- The two filter gates at the head of the per-event code: the optional
sub-account allow-list, then the case-insensitive user exclusion. The
source checks them as two successive `continue`s with no intervening
side effect. -/
def passesFilters (cfg : WCfg) (d : Rec) : Bool :=
  (cfg.filterUpper.isEmpty || cfg.filterUpper.contains (pyUpper ((eventAcctOf d).getD ""))) &&
  (cfg.excludeUpper.isEmpty || !cfg.excludeUpper.contains (pyUpper (userOf d)))

/-- Guard of the New branch: `exec_type == "New" or ord_status == "New"`. -/
def newCond (d : Rec) : Bool :=
  d.execType = some "New" || d.ordStatus = some "New"

/-- Guard of the Canceled branch:
`ord_status == "Canceled" or exec_type == "Canceled"`. -/
def cancelCond (d : Rec) : Bool :=
  d.ordStatus = some "Canceled" || d.execType = some "Canceled"

/-- Guard of the per-exec fill branch: per-fill reporting enabled,
`exec_type == "Trade"`, and `float(lastqty or 0) > 0` (a float-parse
failure is swallowed by the surrounding `try`). -/
def fillCond (cfg : WCfg) (d : Rec) : Bool :=
  cfg.showPerExecFill && d.execType = some "Trade" &&
    (match pyFloat? (jlitOrZero d.lastQty) with
     | some v => decide (0 < v)
     | none => false)

/-- The `leaves_zero` test: `leaves == 0 or leaves == "0"` (Python
equality between a missing value or a string and the number 0 is
false). -/
def leavesZero (d : Rec) : Bool :=
  match d.leavesQty with
  | some (.n v) => v = 0
  | some (.s s) => s = "0"
  | none => false

/-- Raw guard of the fully-filled branch:
`ord_status == "Filled" or leaves_zero`. -/
def rawFilledCond (d : Rec) : Bool :=
  d.ordStatus = some "Filled" || leavesZero d

/-- Full guard of the fully-filled announcement:
`(ord_status == "Filled" or leaves_zero) and oid and oid not in
filled_announced`. -/
def filledCond (filled : List String) (d : Rec) : Bool :=
  rawFilledCond d && oidOf d ≠ "" && !filled.contains (oidOf d)

/-- Embeds `filled_announced.add(oid)` (the Python set is modelled as a
duplicate-free list). -/
def addFilled (oid : String) (filled : List String) : List String :=
  if filled.contains oid then filled else oid :: filled

/-- Embeds the filtering and classification of one execution-report data
element (lines of `_talos_loop` from the sub-account filter through the
fully-filled announcement): the notifications emitted for this element,
in order, and the updated `filled_announced` set. `la` is the value of
`learned_acct` at this point. Note that the per-exec fill branch does
not `continue`: control falls through to the fully-filled branch. -/
def classifyEvent (cfg : WCfg) (la : Option String) (initial : Bool)
    (filled : List String) (d : Rec) : List Notif × List String :=
  if !passesFilters cfg d then ([], filled)
  else if newCond d then ([.newOrder la (symOf d) (oidOf d)], filled)
  else if cancelCond d then
    ([.cancelled initial (symOf d) (oidOf d) (firstTruthy [d.text, d.cancelReason])], filled)
  else
    let fills : List Notif := if fillCond cfg d then [.fill initial (symOf d) (oidOf d)] else []
    if filledCond filled d then
      (fills ++ [.filled initial (symOf d) (oidOf d)], addFilled (oidOf d) filled)
    else (fills, filled)

/-! ## Watcher state machine (`_talos_loop`, outer loop) -/

/-- The mutable state `_talos_loop` threads across connection attempts
and events. `downtime` models `downtime_start is not None`, `helloSeen`
models `hello_info is not None`. -/
structure WatcherState where
  backoff : Nat := 1
  downtime : Bool := false
  retries : Nat := 0
  helloSeen : Bool := false
  bannerSent : Bool := false
  learnedAcct : Option String := none
  filled : List String := []
deriving DecidableEq, Repr

/-- Initial state of a watcher, given the configured `account_label`. -/
def initWState (accountLabel : Option String) : WatcherState :=
  { learnedAcct := accountLabel }

/-- The observable steps of one watcher run: a connection failure (either
`except` arm of the outer loop), a successful connect-plus-handshake, or
one execution-report data element arriving with its message's `initial`
flag. -/
inductive WEvent where
  | wfail
  | whandshake
  | wevent (initial : Bool) (d : Rec)

/-- Embeds the account learning, one-shot merged connected banner, and
classification performed for one data element of the inner receive
loop. -/
def processEvent (cfg : WCfg) (st : WatcherState) (initial : Bool) (d : Rec) :
    WatcherState × List Notif :=
  let la := if !isTruthyS st.learnedAcct && (eventAcctOf d).isSome then eventAcctOf d
            else st.learnedAcct
  let banner : List Notif :=
    if isTruthyS la && st.helloSeen && !st.bannerSent then [.connected (la.getD "")] else []
  let bannerSent := st.bannerSent || (isTruthyS la && st.helloSeen && !st.bannerSent)
  let r := classifyEvent cfg la initial st.filled d
  ({ st with learnedAcct := la, bannerSent := bannerSent, filled := r.2 }, banner ++ r.1)

/-- One step of the outer loop. A failure arm records the downtime start
and resets the retry count on a first failure, increments retries,
sleeps the current `backoff` (returned as the third component) and then
doubles it with ceiling 60. A successful handshake takes the reconnect
arm when downtime was recorded (clearing it and resetting the backoff to
the floor), or the initial-banner arm when the account label is already
known and the banner not yet sent (also resetting the backoff); the
banner notifications themselves are venue-independent side effects whose
text no claim concerns, so only their state effects are modelled. -/
def stepW (cfg : WCfg) (st : WatcherState) : WEvent → WatcherState × List Notif × Option Nat
  | .wfail =>
    let st1 := if st.downtime then st else { st with downtime := true, retries := 0 }
    let st2 := { st1 with retries := st1.retries + 1 }
    ({ st2 with backoff := min (st2.backoff * 2) 60 }, [], some st2.backoff)
  | .whandshake =>
    if st.downtime then
      ({ st with downtime := false, retries := 0, bannerSent := true,
                 backoff := 1, helloSeen := true }, [], none)
    else if isTruthyS st.learnedAcct && !st.bannerSent then
      ({ st with bannerSent := true, backoff := 1, helloSeen := true }, [], none)
    else ({ st with helloSeen := true }, [], none)
  | .wevent initial d =>
    let (st', ns) := processEvent cfg st initial d
    (st', ns, none)

/-- Run a list of watcher steps, returning the final state. -/
def runW (cfg : WCfg) (st : WatcherState) : List WEvent → WatcherState
  | [] => st
  | e :: rest => runW cfg (stepW cfg st e).1 rest

/-- Run a list of watcher steps, collecting every emitted notification. -/
def runNotifs (cfg : WCfg) (st : WatcherState) : List WEvent → List Notif
  | [] => []
  | e :: rest => (stepW cfg st e).2.1 ++ runNotifs cfg (stepW cfg st e).1 rest

/-- Run a list of watcher steps, collecting the backoff sleep durations
in order. -/
def runSleeps (cfg : WCfg) (st : WatcherState) : List WEvent → List Nat
  | [] => []
  | e :: rest =>
    (stepW cfg st e).2.2.toList ++ runSleeps cfg (stepW cfg st e).1 rest

/-- Number of fully-filled ("Order Filled") notifications in a list. -/
def countFilledK (l : List Notif) : Nat :=
  (l.filter (fun n => n.kind = NKind.filledK)).length

/-! ## REST client (`TalosRestClient.list_open_orders`) -/

/-- The default open-status set `OPEN_STATUSES_DEFAULT`. -/
def OPEN_STATUSES_DEFAULT : List String :=
  ["PendingNew", "New", "PartiallyFilled", "PendingReplace"]

/-- Embeds `statuses = list(statuses or OPEN_STATUSES_DEFAULT)`: `None`
or an empty iterable (both falsy) select the default. -/
def statusesEff (statuses : Option (List String)) : List String :=
  match statuses with
  | none => OPEN_STATUSES_DEFAULT
  | some l => if l = [] then OPEN_STATUSES_DEFAULT else l

/-- Embeds `o.get("OrderID") or o.get("orderId") or o.get("Id")`, the
order identifier used for de-duplication. -/
def oidOfRow (o : Rec) : Option String :=
  firstTruthy [o.orderID, o.orderId, o.idKey]

/-- One iteration of the de-duplication loop: `if not oid: continue;
by_oid[oid] = o`. A Python dict assignment replaces in place when the
key exists and appends otherwise; the dict is modelled as an association
list. -/
def dedupStep (m : List (String × Rec)) (o : Rec) : List (String × Rec) :=
  match oidOfRow o with
  | none => m
  | some k =>
    if m.any (fun p => p.1 = k) then m.map (fun p => if p.1 = k then (k, o) else p)
    else m ++ [(k, o)]

/-- The `by_oid` dict after the de-duplication loop. -/
def dedupRows (rows : List Rec) : List (String × Rec) :=
  rows.foldl dedupStep []

/-- Embeds `is_excluded`: the uppercased fallback user is a member of
the uppercased exclude set. -/
def is_excluded (exclUpper : List String) (o : Rec) : Bool :=
  exclUpper.contains (pyUpper (userOf o))

/-- Embeds `float(o.get("LeavesQty") or 0)` with the `except` arm
yielding `0.0`. -/
def leavesOfRow (o : Rec) : Rat :=
  match pyFloat? (jlitOrZero o.leavesQty) with
  | some v => v
  | none => 0

/-- Embeds `is_live`: stripped status in the requested set and leaves
quantity strictly positive. -/
def is_live (statuses : List String) (o : Rec) : Bool :=
  statuses.contains (pyStrip (pyStrOr o.ordStatus "")) && decide (0 < leavesOfRow o)

/-- The sort key `(str(o.get("AccountName") or o.get("SubAccount") or
""), str(o.get("Symbol") or ""), str(o.get("Side") or ""))`. -/
def sortKeyRow (o : Rec) : String × String × String :=
  ((firstTruthy [o.accountName, o.subAccount]).getD "",
   pyStrOr o.symbol "", pyStrOr o.side "")

/-- Lexicographic comparison of sort keys, as Python compares the key
tuples (strings by code point). -/
def keyLE (a b : String × String × String) : Bool :=
  if a.1 ≠ b.1 then decide (a.1 < b.1)
  else if a.2.1 ≠ b.2.1 then decide (a.2.1 < b.2.1)
  else decide (a.2.2 ≤ b.2.2)

/-- Row comparison by sort key. -/
def rowLE (a b : Rec) : Bool := keyLE (sortKeyRow a) (sortKeyRow b)

/-- Insertion into a sorted list. -/
def insertRow (x : Rec) : List Rec → List Rec
  | [] => [x]
  | y :: ys => if rowLE x y then x :: y :: ys else y :: insertRow x ys

/-- Models `live.sort(key=...)`: a comparison sort by the key tuple.
Python's sort is stable; no theorem below relies on the order of rows
with equal keys, so insertion sort is used. -/
def sortRows : List Rec → List Rec
  | [] => []
  | x :: xs => insertRow x (sortRows xs)

/-- Embeds the post-fetch pipeline of `list_open_orders`: de-duplicate
by order identifier (last appearance wins), keep rows that are neither
excluded nor dead, and sort by (account, symbol, side). `excludeUsers`
is the raw iterable; the uppercased set `excl` is built inside as in the
source. -/
def listOpenOrdersPost (rows : List Rec) (statuses : Option (List String))
    (excludeUsers : List String) : List Rec :=
  let sts := statusesEff statuses
  let excl := excludeUsers.map pyUpper
  sortRows (((dedupRows rows).map (fun p => p.2)).filter
    (fun o => !is_excluded excl o && is_live sts o))

/-! ## REST pagination loop -/

/-- One server response to a page request: a JSON object (its `data`
array, and its `next` and `after` fields), a bare JSON array, or
anything else. -/
inductive PageResp where
  | obj (rows : List Rec) (nxt aft : Option String)
  | arr (rows : List Rec)
  | other
deriving Repr

/-- Rows accumulated from one response: `payload.get("data", [])` for an
object, the array itself for a bare array, nothing otherwise. -/
def pageRows : PageResp → List Rec
  | .obj rows _ _ => rows
  | .arr rows => rows
  | .other => []

/-- The cursor taken from an object response:
`payload.get("next") or payload.get("after")`. -/
def pageCursor : PageResp → Option String
  | .obj _ nxt aft => firstTruthy [nxt, aft]
  | _ => none

/-- Whether the loop requests a further page after this response: an
object response whose cursor is truthy and whose row list is non-empty
(`if not after or not rows: break`); a bare array or any other payload
is terminal. -/
def contPage : PageResp → Bool
  | .obj rows nxt aft => (firstTruthy [nxt, aft]).isSome && !rows.isEmpty
  | _ => false

/-- Embeds the pagination loop against an abstract server: `srv i` is the
response to the `i`-th request. Returns the accumulated `all_rows` and
the number of requests issued. The loop itself has no bound; the fuel
argument truncates runs longer than `fuel` requests, and every theorem
below supplies enough fuel to cover the run it describes. -/
def fetchGo (srv : Nat → PageResp) : Nat → Nat → List Rec × Nat
  | 0, _ => ([], 0)
  | fuel + 1, i =>
    let p := srv i
    if contPage p then
      let r := fetchGo srv fuel (i + 1)
      (pageRows p ++ r.1, r.2 + 1)
    else (pageRows p, 1)

/-- The accumulated raw rows and request count of one fetch. -/
def fetchAll (srv : Nat → PageResp) (fuel : Nat) : List Rec × Nat :=
  fetchGo srv fuel 0

/-! ## Auxiliary definitions for the statements and proofs -/

/-- The sleep durations emitted by `k` consecutive failures starting
from backoff value `b`. -/
def sleepsFrom (b : Nat) : Nat → List Nat
  | 0 => []
  | k + 1 => b :: sleepsFrom (min (b * 2) 60) k

/-- Invariant of the watcher state: the backoff stays within
`[1, 60]` and is at the floor whenever no downtime is being tracked. -/
def WInv (st : WatcherState) : Prop :=
  1 ≤ st.backoff ∧ st.backoff ≤ 60 ∧ (st.downtime = false → st.backoff = 1)

/-- Lookup in the association list modelling the `by_oid` dict. -/
def alookup (k : String) : List (String × Rec) → Option Rec
  | [] => none
  | p :: rest => if p.1 = k then some p.2 else alookup k rest

/-- The last row of the list whose order identifier is `k` — the row the
spec says survives de-duplication. -/
def lastWithKey (k : String) : List Rec → Option Rec
  | [] => none
  | o :: rest =>
    match lastWithKey k rest with
    | some v => some v
    | none => if oidOfRow o = some k then some o else none

/-- Combined guard under which the per-event code emits the one
"Order Filled" notification and records the order id: the event passes
both filters, matches neither the New nor the Canceled branch, and
satisfies the fully-filled guard. -/
def announceCond (cfg : WCfg) (filled : List String) (d : Rec) : Bool :=
  passesFilters cfg d && !newCond d && !cancelCond d && filledCond filled d

/-! ## Concrete fixtures used in the counterexamples and witnesses -/

/-- A final-fill execution report: a Trade exec that also reports
`OrdStatus == "Filled"`. -/
def tradeFilledEvt : Rec :=
  { execType := some "Trade", ordStatus := some "Filled", lastQty := some (.n 1),
    orderID := some "B", symbol := some "BTC-USD" }

/-- A watcher configuration with per-exec fill reporting enabled. -/
def perFillCfg : WCfg := { showPerExecFill := true }

/-- A cancel event whose leaves quantity is zero. -/
def cancelZeroEvt : Rec :=
  { ordStatus := some "Canceled", leavesQty := some (.n 0), orderID := some "A" }

/-- A plain fully-filled execution report. -/
def filledEvt : Rec :=
  { ordStatus := some "Filled", orderID := some "A", symbol := some "BTC-USD" }

/-- A New-order execution report. -/
def newEvt : Rec :=
  { execType := some "New", orderID := some "X1", symbol := some "BTC-USD" }

/-- A cancel event with a reason text. -/
def cancelReasonEvt : Rec :=
  { ordStatus := some "Canceled", orderID := some "X2", text := some "User requested" }

/-- A fully-filled execution report with no `OrderID` key. -/
def noOidFilledEvt : Rec :=
  { ordStatus := some "Filled", leavesQty := some (.n 0) }

/-- A fully-filled execution report for a different order, also with no
`OrderID` key. -/
def noOidFilledEvt2 : Rec :=
  { ordStatus := some "Filled", symbol := some "ETH-USD", leavesQty := some (.n 0) }

/-- A cancel event with zero leaves and no `OrderID` key. -/
def noOidCancelZeroEvt : Rec :=
  { ordStatus := some "Canceled", leavesQty := some (.n 0) }

/-- An event whose request user is `bitgo-api`. -/
def bitgoEvt : Rec :=
  { requestUser := some "bitgo-api", execType := some "New", orderID := some "Z" }

/-- A live order row whose request user is `bitgo-api`. -/
def bitgoRow : Rec :=
  { requestUser := some "bitgo-api", orderID := some "R1", ordStatus := some "New",
    leavesQty := some (.n 1) }

/-- Order `A1` as it appears on an early page: status New, leaves 5. -/
def rowA1New : Rec :=
  { orderID := some "A1", ordStatus := some "New", leavesQty := some (.n 5),
    symbol := some "BTC-USD" }

/-- An unrelated live order row. -/
def rowB7 : Rec :=
  { orderID := some "B7", ordStatus := some "New", leavesQty := some (.n 1),
    symbol := some "ETH-USD" }

/-- Order `A1` as it appears on a later page: status Filled, leaves 0. -/
def rowA1Filled : Rec :=
  { orderID := some "A1", ordStatus := some "Filled", leavesQty := some (.n 0),
    symbol := some "BTC-USD" }

/-- A row carrying none of the three order-identifier keys. -/
def rowNoId : Rec :=
  { ordStatus := some "New", leavesQty := some (.n 3), symbol := some "SOL-USD" }

/-- A two-page server: page 0 has 500 rows and a cursor, page 1 has 3
rows and no cursor. -/
def srvTwoPages : Nat → PageResp := fun i =>
  if i = 0 then .obj (List.replicate 500 rowB7) (some "cur1") none
  else .obj (List.replicate 3 rowA1New) none none

/-! ## Lemmas about the backoff state machine -/

theorem processEvent_backoff (cfg : WCfg) (st : WatcherState) (i : Bool) (d : Rec) :
    (processEvent cfg st i d).1.backoff = st.backoff ∧
    (processEvent cfg st i d).1.downtime = st.downtime := by
  simp [processEvent]

theorem winv_init (a : Option String) : WInv (initWState a) :=
  ⟨le_refl 1, by show (1 : Nat) ≤ 60; decide, fun _ => rfl⟩

theorem winv_step (cfg : WCfg) (st : WatcherState) (e : WEvent) (h : WInv st) :
    WInv (stepW cfg st e).1 := by
  obtain ⟨h1, h60, hd⟩ := h
  cases e with
  | wfail =>
    simp only [stepW, WInv]
    constructor
    · by_cases hdt : st.downtime <;> simp [hdt] <;> omega
    · by_cases hdt : st.downtime <;> simp [hdt] <;> try omega
  | whandshake =>
    simp only [stepW]
    by_cases hdt : st.downtime
    · simp [hdt, WInv]
    · simp only [hdt]
      by_cases hb : isTruthyS st.learnedAcct && !st.bannerSent
      · simp [hb, WInv]
      · simp only [Bool.not_eq_true] at hdt
        simp [hb, WInv, h1, h60, hd hdt]
  | wevent i d =>
    have hp := processEvent_backoff cfg st i d
    simp only [stepW, WInv, hp.1, hp.2]
    exact ⟨h1, h60, hd⟩

theorem winv_run (cfg : WCfg) (st : WatcherState) (evs : List WEvent) (h : WInv st) :
    WInv (runW cfg st evs) := by
  induction evs generalizing st with
  | nil => exact h
  | cons e rest ih => exact ih _ (winv_step cfg st e h)

theorem runSleeps_replicate_fail (cfg : WCfg) (k : Nat) (st : WatcherState) :
    runSleeps cfg st (List.replicate k .wfail) = sleepsFrom st.backoff k := by
  induction k generalizing st with
  | zero => simp [runSleeps, sleepsFrom]
  | succ k ih =>
    simp only [List.replicate_succ, runSleeps, sleepsFrom]
    by_cases hdt : st.downtime <;> simp [stepW, hdt, ih]

theorem chain'_sleepsFrom (k : Nat) (b : Nat) (h60 : b ≤ 60) :
    List.Chain' (· ≤ ·) (sleepsFrom b k) := by
  induction k generalizing b with
  | zero => simp [sleepsFrom]
  | succ k ih =>
    rw [sleepsFrom, List.chain'_cons']
    refine ⟨?_, ih _ (min_le_right _ _)⟩
    intro y hy
    cases k with
    | zero => simp [sleepsFrom] at hy
    | succ k =>
      simp only [sleepsFrom, List.head?_cons, Option.mem_def, Option.some.injEq] at hy
      omega

theorem sleepsFrom_closed (k : Nat) (b : Nat) (h1 : 1 ≤ b) (h60 : b ≤ 60) :
    sleepsFrom b k = (List.range k).map (fun i => min (b * 2 ^ i) 60) := by
  induction k generalizing b with
  | zero => simp [sleepsFrom]
  | succ k ih =>
    rw [sleepsFrom, List.range_succ_eq_map, List.map_cons, List.map_map]
    have hb0 : min (b * 2 ^ 0) 60 = b := by rw [pow_zero, mul_one]; omega
    rw [hb0]
    congr 1
    rw [ih (min (b * 2) 60) (by omega) (by omega)]
    have hfun : (fun i => min (min (b * 2) 60 * 2 ^ i) 60) =
        ((fun i => min (b * 2 ^ i) 60) ∘ Nat.succ) := by
      funext i
      have hp : 1 ≤ 2 ^ i := Nat.one_le_two_pow
      have hmul : b * 2 ^ (i + 1) = b * 2 * 2 ^ i := by ring
      simp only [Function.comp_apply, Nat.succ_eq_add_one, hmul]
      by_cases hc : b * 2 ≤ 60
      · rw [min_eq_left hc]
      · have h1' : min (b * 2) 60 = 60 := by omega
        rw [h1']
        have e1 : 60 ≤ 60 * 2 ^ i := Nat.le_mul_of_pos_right 60 (by omega)
        have e2 : 60 ≤ b * 2 * 2 ^ i :=
          le_trans (by omega) (Nat.le_mul_of_pos_right (b * 2) (by omega))
        rw [min_eq_right e1, min_eq_right e2]
    rw [hfun]

theorem handshake_backoff_one (cfg : WCfg) (st : WatcherState) (h : WInv st) :
    (stepW cfg st .whandshake).1.backoff = 1 := by
  obtain ⟨h1, h60, hd⟩ := h
  simp only [stepW]
  by_cases hdt : st.downtime
  · simp [hdt]
  · simp only [hdt]
    by_cases hb : isTruthyS st.learnedAcct && !st.bannerSent
    · simp [hb]
    · simp only [Bool.not_eq_true] at hdt
      simp [hb, hd hdt]

/-- C3: across any run of a watcher (any interleaving of failures,
successful handshakes and received events starting from the initial
state), the sleep durations of consecutive connection failures form a
monotonically non-decreasing sequence; the backoff is 1 immediately
after any successful connect+handshake; and from that point `k`
consecutive failures sleep exactly `min (2 ^ i) 60` seconds (the
sequence 1, 2, 4, 8, 16, 32, 60, 60, ...). -/
theorem backoff_monotone_and_resets (cfg : WCfg) (acct0 : Option String)
    (evs : List WEvent) (k : Nat) :
    List.Chain' (· ≤ ·)
      (runSleeps cfg (runW cfg (initWState acct0) evs) (List.replicate k .wfail)) ∧
    (stepW cfg (runW cfg (initWState acct0) evs) .whandshake).1.backoff = 1 ∧
    runSleeps cfg (stepW cfg (runW cfg (initWState acct0) evs) .whandshake).1
        (List.replicate k .wfail) = (List.range k).map (fun i => min (2 ^ i) 60) := by
  have hinv := winv_run cfg _ evs (winv_init acct0)
  refine ⟨?_, handshake_backoff_one cfg _ hinv, ?_⟩
  · rw [runSleeps_replicate_fail]
    exact chain'_sleepsFrom k _ hinv.2.1
  · rw [runSleeps_replicate_fail, handshake_backoff_one cfg _ hinv,
      sleepsFrom_closed k 1 (le_refl 1) (by decide)]
    simp [one_mul]

/-- C4 (counterexample): a single event that is a Trade exec with a
positive last quantity and `OrdStatus == "Filled"` produces two
notifications — the per-exec Fill branch does not `continue`, so
control falls through to the fully-filled branch. This refutes both the
first-match-wins priority between branches (3) and (4) and "no single
event ever produces two notifications". -/
theorem classify_two_notifs_cex :
    ((classifyEvent perFillCfg none false [] tradeFilledEvt).1.map Notif.kind
      = [NKind.fillK, NKind.filledK]) ∧
    ((classifyEvent perFillCfg none false [] tradeFilledEvt).1.length = 2) := by
  decide

/-- C4 (amended): one filtered event emits at most two notifications;
the New and Canceled branches are exclusive and first-match in that
order; exactly two notifications occur precisely when the event matches
neither of those branches but both the per-exec-fill guard and the
fully-filled guard hold. -/
theorem classify_branch_structure (cfg : WCfg) (la : Option String) (i : Bool)
    (filled : List String) (d : Rec) :
    ((classifyEvent cfg la i filled d).1.length ≤ 2) ∧
    ((classifyEvent cfg la i filled d).1.length = 2 ↔
      passesFilters cfg d = true ∧ newCond d = false ∧ cancelCond d = false ∧
        fillCond cfg d = true ∧ filledCond filled d = true) ∧
    ((classifyEvent cfg la i filled d).1.map Notif.kind = [NKind.newK] ↔
      passesFilters cfg d = true ∧ newCond d = true) ∧
    ((classifyEvent cfg la i filled d).1.map Notif.kind = [NKind.cancelK] ↔
      passesFilters cfg d = true ∧ newCond d = false ∧ cancelCond d = true) ∧
    ((classifyEvent cfg la i filled d).1.map Notif.kind = [NKind.fillK, NKind.filledK] ↔
      passesFilters cfg d = true ∧ newCond d = false ∧ cancelCond d = false ∧
        fillCond cfg d = true ∧ filledCond filled d = true) := by
  by_cases hp : passesFilters cfg d
  · by_cases hn : newCond d
    · simp [classifyEvent, hp, hn, Notif.kind]
    · by_cases hc : cancelCond d
      · simp [classifyEvent, hp, hn, hc, Notif.kind]
      · by_cases hf : fillCond cfg d <;> by_cases hd : filledCond filled d <;>
          simp [classifyEvent, hp, hn, hc, hf, hd, Notif.kind]
  · simp [classifyEvent, hp]

/-! ## Lemmas about the fill-dedup bookkeeping -/

theorem oidOf_ne_empty (d : Rec) : oidOf d ≠ "" := by
  unfold oidOf pyStrOr
  cases d.orderID with
  | none => simp
  | some s =>
    by_cases hs : s = "" <;> simp [hs]

theorem countFilledK_append (a b : List Notif) :
    countFilledK (a ++ b) = countFilledK a + countFilledK b := by
  simp [countFilledK, List.filter_append]

theorem classify_filled_count (cfg : WCfg) (la : Option String) (i : Bool)
    (filled : List String) (d : Rec) :
    countFilledK (classifyEvent cfg la i filled d).1 =
      if announceCond cfg filled d then 1 else 0 := by
  by_cases hp : passesFilters cfg d
  · by_cases hn : newCond d
    · simp [classifyEvent, announceCond, hp, hn, countFilledK, Notif.kind]
    · by_cases hc : cancelCond d
      · simp [classifyEvent, announceCond, hp, hn, hc, countFilledK, Notif.kind]
      · by_cases hf : fillCond cfg d <;> by_cases hd : filledCond filled d <;>
          simp [classifyEvent, announceCond, hp, hn, hc, hf, hd, countFilledK, Notif.kind]
  · simp [classifyEvent, announceCond, hp, countFilledK]

theorem classify_filled_set (cfg : WCfg) (la : Option String) (i : Bool)
    (filled : List String) (d : Rec) :
    (classifyEvent cfg la i filled d).2 =
      if announceCond cfg filled d then addFilled (oidOf d) filled else filled := by
  by_cases hp : passesFilters cfg d
  · by_cases hn : newCond d
    · simp [classifyEvent, announceCond, hp, hn]
    · by_cases hc : cancelCond d
      · simp [classifyEvent, announceCond, hp, hn, hc]
      · by_cases hf : fillCond cfg d <;> by_cases hd : filledCond filled d <;>
          simp [classifyEvent, announceCond, hp, hn, hc, hf, hd]
  · simp [classifyEvent, announceCond, hp]

theorem processEvent_filled_count (cfg : WCfg) (st : WatcherState) (i : Bool) (d : Rec) :
    countFilledK (processEvent cfg st i d).2 =
      if announceCond cfg st.filled d then 1 else 0 := by
  simp only [processEvent]
  rw [countFilledK_append]
  have hb : ∀ (b : Bool) (a : Option String),
      countFilledK (if b then [Notif.connected (a.getD "")] else []) = 0 := by
    intro b a
    cases b <;> simp [countFilledK, Notif.kind]
  rw [hb, classify_filled_count]
  omega

theorem processEvent_filled_set (cfg : WCfg) (st : WatcherState) (i : Bool) (d : Rec) :
    (processEvent cfg st i d).1.filled =
      if announceCond cfg st.filled d then addFilled (oidOf d) st.filled else st.filled := by
  simp only [processEvent]
  exact classify_filled_set ..

theorem mem_addFilled_self (x : String) (l : List String) : x ∈ addFilled x l := by
  by_cases h : x ∈ l <;> simp [addFilled, h]

theorem mem_addFilled_of_mem (x y : String) (l : List String) (h : x ∈ l) :
    x ∈ addFilled y l := by
  by_cases hy : y ∈ l <;> simp [addFilled, hy, h]

theorem nodup_addFilled (y : String) (l : List String) (h : l.Nodup) :
    (addFilled y l).Nodup := by
  by_cases hy : y ∈ l <;> simp [addFilled, hy, h]

theorem mem_filled_step (cfg : WCfg) (st : WatcherState) (e : WEvent) (x : String)
    (h : x ∈ st.filled) : x ∈ (stepW cfg st e).1.filled := by
  cases e with
  | wfail =>
    by_cases hdt : st.downtime <;> simpa [stepW, hdt] using h
  | whandshake =>
    by_cases hdt : st.downtime
    · simpa [stepW, hdt] using h
    · by_cases hb : isTruthyS st.learnedAcct && !st.bannerSent <;>
        simpa [stepW, hdt, hb] using h
  | wevent i d =>
    show x ∈ (processEvent cfg st i d).1.filled
    rw [processEvent_filled_set]
    by_cases ha : announceCond cfg st.filled d
    · simpa [ha] using mem_addFilled_of_mem x (oidOf d) st.filled h
    · simpa [ha] using h

theorem mem_filled_run (cfg : WCfg) (st : WatcherState) (evs : List WEvent) (x : String)
    (h : x ∈ st.filled) : x ∈ (runW cfg st evs).filled := by
  induction evs generalizing st with
  | nil => exact h
  | cons e rest ih => exact ih _ (mem_filled_step cfg st e x h)

theorem nodup_filled_step (cfg : WCfg) (st : WatcherState) (e : WEvent)
    (h : st.filled.Nodup) : (stepW cfg st e).1.filled.Nodup := by
  cases e with
  | wfail =>
    by_cases hdt : st.downtime <;> simpa [stepW, hdt] using h
  | whandshake =>
    by_cases hdt : st.downtime
    · simpa [stepW, hdt] using h
    · by_cases hb : isTruthyS st.learnedAcct && !st.bannerSent <;>
        simpa [stepW, hdt, hb] using h
  | wevent i d =>
    show (processEvent cfg st i d).1.filled.Nodup
    rw [processEvent_filled_set]
    by_cases ha : announceCond cfg st.filled d
    · simpa [ha] using nodup_addFilled (oidOf d) st.filled h
    · simpa [ha] using h

theorem nodup_filled_run (cfg : WCfg) (st : WatcherState) (evs : List WEvent)
    (h : st.filled.Nodup) : (runW cfg st evs).filled.Nodup := by
  induction evs generalizing st with
  | nil => exact h
  | cons e rest ih => exact ih _ (nodup_filled_step cfg st e h)

/-- C1 (counterexample): an event can satisfy the claim's Filled
condition (`ord_status == "Filled" or leaves_qty == 0`) and yet be
captured by an earlier branch. A Canceled report with zero leaves
satisfies the Filled condition, but feeding it to the classifier twice
emits the "Order Filled" notification zero times — not exactly once —
and its order id is never added to `filled_announced`. -/
theorem fill_dedup_cex :
    rawFilledCond cancelZeroEvt = true ∧
    countFilledK ((classifyEvent {} none false [] cancelZeroEvt).1 ++
      (classifyEvent {} none false
        (classifyEvent {} none false [] cancelZeroEvt).2 cancelZeroEvt).1) = 0 ∧
    (classifyEvent {} none false [] cancelZeroEvt).2 = [] := by
  decide

/-- C1 (amended): two events with the same order id that both satisfy
the Filled condition, pass the filters, and match neither the New nor
the Canceled branch emit the "Order Filled" notification exactly once
when the id is not yet announced; the id is recorded at the first such
event; and across any sequence of events, handshakes and reconnect
failures, `filled_announced` never loses an element and never holds an
element twice. -/
theorem fill_dedup_amended (cfg : WCfg) (st : WatcherState) (i1 i2 : Bool) (d1 d2 : Rec)
    (hp1 : passesFilters cfg d1 = true) (hp2 : passesFilters cfg d2 = true)
    (hn1 : newCond d1 = false) (hn2 : newCond d2 = false)
    (hc1 : cancelCond d1 = false) (hc2 : cancelCond d2 = false)
    (hr1 : rawFilledCond d1 = true) (hr2 : rawFilledCond d2 = true)
    (hoid : oidOf d1 = oidOf d2)
    (hmem : st.filled.contains (oidOf d1) = false) :
    countFilledK ((processEvent cfg st i1 d1).2 ++
      (processEvent cfg (processEvent cfg st i1 d1).1 i2 d2).2) = 1 ∧
    oidOf d1 ∈ (processEvent cfg st i1 d1).1.filled ∧
    (∀ (s : WatcherState) (evs : List WEvent) (x : String),
      x ∈ s.filled → x ∈ (runW cfg s evs).filled) ∧
    (∀ (s : WatcherState) (evs : List WEvent), s.filled.Nodup → (runW cfg s evs).filled.Nodup) := by
  have hmem' : oidOf d1 ∉ st.filled := by simpa using hmem
  have ha1 : announceCond cfg st.filled d1 = true := by
    simp [announceCond, hp1, hn1, hc1, filledCond, hr1, oidOf_ne_empty d1, hmem']
  have hset1 := processEvent_filled_set cfg st i1 d1
  rw [ha1, if_pos rfl] at hset1
  have hmem1 : oidOf d1 ∈ (processEvent cfg st i1 d1).1.filled := by
    rw [hset1]; exact mem_addFilled_self _ _
  have ha2 : announceCond cfg (processEvent cfg st i1 d1).1.filled d2 = false := by
    have hc : oidOf d2 ∈ (processEvent cfg st i1 d1).1.filled := hoid ▸ hmem1
    simp [announceCond, filledCond, hc]
  refine ⟨?_, hmem1, fun s evs x h => mem_filled_run cfg s evs x h,
    fun s evs h => nodup_filled_run cfg s evs h⟩
  rw [countFilledK_append, processEvent_filled_count, processEvent_filled_count, ha1, ha2]
  simp

/-- C1 (witness): the amended dedup theorem applied to a concrete Filled
event fed twice from a fresh watcher state. -/
theorem fill_dedup_amended_witness :
    countFilledK ((processEvent {} (initWState none) false filledEvt).2 ++
      (processEvent {} (processEvent {} (initWState none) false filledEvt).1
        false filledEvt).2) = 1 ∧
    oidOf filledEvt ∈ (processEvent {} (initWState none) false filledEvt).1.filled := by
  have h := fill_dedup_amended {} (initWState none) false false filledEvt filledEvt
    (by decide) (by decide) (by decide) (by decide) (by decide) (by decide)
    (by decide) (by decide) rfl (by decide)
  exact ⟨h.1, h.2.1⟩

/-! ## Lemmas about the REST sort -/

theorem insertRow_perm (x : Rec) (l : List Rec) : (insertRow x l).Perm (x :: l) := by
  induction l with
  | nil => simp [insertRow]
  | cons y ys ih =>
    by_cases h : rowLE x y
    · simp [insertRow, h]
    · simp only [insertRow, h, Bool.false_eq_true, if_false]
      exact ((ih.cons y).trans (List.Perm.swap x y ys))

theorem sortRows_perm (l : List Rec) : (sortRows l).Perm l := by
  induction l with
  | nil => simp [sortRows]
  | cons x xs ih =>
    exact (insertRow_perm x (sortRows xs)).trans (ih.cons x)

theorem mem_sortRows (o : Rec) (l : List Rec) : o ∈ sortRows l ↔ o ∈ l :=
  (sortRows_perm l).mem_iff

/-! ## C7: case-insensitive user exclusion -/

/-- C7: an event or order row whose fallback user field equals a member
of the exclude set up to ASCII case is dropped before classification in
the stream watcher (no notification, dedup state untouched) and never
appears in the REST client's result. -/
theorem user_exclusion_case_insensitive :
    (∀ (excl subf : List String) (spf : Bool) (la : Option String) (i : Bool)
      (filled : List String) (d : Rec) (e : String),
      e ∈ excl → pyUpper (userOf d) = pyUpper e →
      classifyEvent (mkWCfg excl subf spf) la i filled d = ([], filled)) ∧
    (∀ (rows : List Rec) (statuses : Option (List String)) (excl : List String)
      (o : Rec) (e : String),
      e ∈ excl → pyUpper (userOf o) = pyUpper e →
      o ∉ listOpenOrdersPost rows statuses excl) := by
  constructor
  · intro excl subf spf la i filled d e he hu
    have hmem : pyUpper (userOf d) ∈ excl.map pyUpper := by
      rw [hu]; exact List.mem_map_of_mem pyUpper he
    have hne : (excl.map pyUpper).isEmpty = false := by
      cases hl : excl.map pyUpper with
      | nil => rw [hl] at hmem; simp at hmem
      | cons a as => simp
    have hp : passesFilters (mkWCfg excl subf spf) d = false := by
      simp [passesFilters, mkWCfg, hne, hmem]
    simp [classifyEvent, hp]
  · intro rows statuses excl o e he hu hres
    have hmem : pyUpper (userOf o) ∈ excl.map pyUpper := by
      rw [hu]; exact List.mem_map_of_mem pyUpper he
    simp [listOpenOrdersPost, mem_sortRows, List.mem_filter, is_excluded, hmem] at hres
    exact hres.2.1 e he hu.symm

/-- C7 (witness): a record with `RequestUser="bitgo-api"` is dropped by
the stream watcher and excluded from the REST result when the exclude
set contains `"BITGO-API"`. -/
theorem user_exclusion_witness :
    classifyEvent (mkWCfg ["BITGO-API"] [] false) none false [] bitgoEvt = ([], []) ∧
    bitgoRow ∉ listOpenOrdersPost [bitgoRow] none ["BITGO-API"] := by
  refine ⟨user_exclusion_case_insensitive.1 ["BITGO-API"] [] false none false [] bitgoEvt
    "BITGO-API" (by simp) (by decide),
    user_exclusion_case_insensitive.2 [bitgoRow] none ["BITGO-API"] bitgoRow
    "BITGO-API" (by simp) (by decide)⟩

/-! ## C10: the "-" placeholder order id -/

theorem oidOf_of_not_truthy (d : Rec) (h : isTruthyS d.orderID = false) : oidOf d = "-" := by
  unfold oidOf pyStrOr
  unfold isTruthyS at h
  cases hx : d.orderID with
  | none => rfl
  | some s =>
    rw [hx] at h
    simp only [ne_eq, decide_not, Bool.not_eq_false', decide_eq_true_eq] at h
    simp [h]

/-- C10 (counterexample): the first Filled/zero-leaves event lacking an
`OrderID` is not necessarily announced — a Canceled report with zero
leaves and no `OrderID` satisfies the Filled/zero-leaves condition but
is captured by the Canceled branch, so nothing is announced and `"-"` is
not added to `filled_announced`. -/
theorem placeholder_oid_cex :
    rawFilledCond noOidCancelZeroEvt = true ∧
    noOidCancelZeroEvt.orderID = none ∧
    countFilledK (classifyEvent {} none false [] noOidCancelZeroEvt).1 = 0 ∧
    (classifyEvent {} none false [] noOidCancelZeroEvt).2 = [] := by
  decide

/-- C10 (amended): an event with no truthy `OrderID` gets the
placeholder id `"-"`; the first such Filled/zero-leaves event that
passes the filters and reaches the fully-filled branch (not New, not
Canceled) is announced and adds `"-"` to `filled_announced`; afterwards
every event lacking an `OrderID` — even one for a different order —
has its "Order Filled" announcement suppressed and leaves the set
unchanged, and `"-"` stays in the set across all later events and
reconnects. -/
theorem placeholder_oid_amended (cfg : WCfg) (la : Option String) (i : Bool)
    (filled : List String) (d d2 : Rec)
    (hoid : isTruthyS d.orderID = false)
    (hp : passesFilters cfg d = true) (hn : newCond d = false) (hc : cancelCond d = false)
    (hr : rawFilledCond d = true) (hfm : "-" ∉ filled)
    (hoid2 : isTruthyS d2.orderID = false) :
    oidOf d = "-" ∧
    countFilledK (classifyEvent cfg la i filled d).1 = 1 ∧
    Notif.filled i (symOf d) "-" ∈ (classifyEvent cfg la i filled d).1 ∧
    (classifyEvent cfg la i filled d).2 = addFilled "-" filled ∧
    (∀ (la2 : Option String) (i2 : Bool) (filled2 : List String), "-" ∈ filled2 →
      countFilledK (classifyEvent cfg la2 i2 filled2 d2).1 = 0 ∧
      (classifyEvent cfg la2 i2 filled2 d2).2 = filled2) ∧
    (∀ (s : WatcherState) (evs : List WEvent), "-" ∈ s.filled → "-" ∈ (runW cfg s evs).filled) := by
  have hdash := oidOf_of_not_truthy d hoid
  have hdash2 := oidOf_of_not_truthy d2 hoid2
  have hfc : filledCond filled d = true := by
    simp [filledCond, hr, hdash, hfm]
  have ha : announceCond cfg filled d = true := by
    simp [announceCond, hp, hn, hc, hfc]
  refine ⟨hdash, ?_, ?_, ?_, ?_, ?_⟩
  · rw [classify_filled_count, ha, if_pos rfl]
  · by_cases hf : fillCond cfg d <;>
      simp [classifyEvent, hp, hn, hc, hf, hfc, hdash]
  · rw [classify_filled_set, ha, if_pos rfl, hdash]
  · intro la2 i2 filled2 hmem2
    have ha2 : announceCond cfg filled2 d2 = false := by
      simp [announceCond, filledCond, hdash2, hmem2]
    constructor
    · rw [classify_filled_count, ha2]; simp
    · rw [classify_filled_set, ha2]; simp
  · intro s evs hmem
    exact mem_filled_run cfg s evs "-" hmem

/-- C10 (witness): a Filled event with no `OrderID` announces once and
records `"-"`; a later no-id Filled event for a different order is then
suppressed. -/
theorem placeholder_oid_witness :
    countFilledK (classifyEvent {} none false [] noOidFilledEvt).1 = 1 ∧
    (classifyEvent {} none false [] noOidFilledEvt).2 = ["-"] ∧
    countFilledK (classifyEvent {} none false ["-"] noOidFilledEvt2).1 = 0 ∧
    (classifyEvent {} none false ["-"] noOidFilledEvt2).2 = ["-"] := by
  obtain ⟨h1, h2, h3, h4, h5, h6⟩ := placeholder_oid_amended {} none false [] noOidFilledEvt
    noOidFilledEvt2 (by decide) (by decide) (by decide) (by decide) (by decide)
    (by decide) (by decide)
  obtain ⟨h7, h8⟩ := h5 none false ["-"] (by simp)
  refine ⟨h2, ?_, h7, h8⟩
  rw [h4]
  decide

/-! ## Substring lemmas for the snapshot marker -/

theorem isPrefixOf_append_self (p r : List Char) : p.isPrefixOf (p ++ r) = true := by
  induction p with
  | nil => simp [List.isPrefixOf]
  | cons a as ih => simp [List.isPrefixOf, ih]

theorem containsSub_append_left (pat a l : List Char) (h : containsSub pat l = true) :
    containsSub pat (a ++ l) = true := by
  induction a with
  | nil => simpa using h
  | cons c cs ih => simp [containsSub, ih]

theorem containsSub_self_append (pat r : List Char) : containsSub pat (pat ++ r) = true := by
  cases pat with
  | nil => cases r <;> simp [containsSub, List.isPrefixOf]
  | cons c cs => simp [containsSub, isPrefixOf_append_self]

theorem mem_of_containsSub_cons (c : Char) (ps l : List Char)
    (h : containsSub (c :: ps) l = true) : c ∈ l := by
  induction l with
  | nil => simp [containsSub] at h
  | cons x xs ih =>
    rw [containsSub, Bool.or_eq_true] at h
    cases h with
    | inl h =>
      simp only [List.isPrefixOf, Bool.and_eq_true, beq_iff_eq] at h
      simp [h.1]
    | inr h => exact List.mem_cons_of_mem x (ih h)

theorem containsSub_eq_false (c : Char) (ps l : List Char) (h : c ∉ l) :
    containsSub (c :: ps) l = false := by
  cases hcs : containsSub (c :: ps) l
  · rfl
  · exact absurd (mem_of_containsSub_cons c ps l hcs) h

theorem lbrack_not_mem_md_escape (s : String) (h : '[' ∉ s.data) :
    '[' ∉ (md_escape s).data := by
  intro hmem
  have hmem' : '[' ∈ (s.data.map md_escape_char).flatten := hmem
  rw [List.mem_flatten] at hmem'
  obtain ⟨chunk, hchunk, hc⟩ := hmem'
  rw [List.mem_map] at hchunk
  obtain ⟨ch, hch, rfl⟩ := hchunk
  unfold md_escape_char at hc
  by_cases hin : ch ∈ "_*[]`".data
  · rw [if_pos hin] at hc
    simp only [List.mem_cons, List.not_mem_nil, or_false] at hc
    rcases hc with hc | hc
    · exact absurd hc (by decide)
    · exact h (hc ▸ hch)
  · rw [if_neg hin] at hc
    simp only [List.mem_cons, List.not_mem_nil, or_false] at hc
    exact h (hc ▸ hch)

/-- The marker test on the header shape shared by the Cancelled, Fill
and fully-Filled templates: a fixed bracket-free literal, the snapshot
fragment, an em-dash separator, and the escaped symbol. -/
theorem containsMark_marked (lit : String) (hlit : '[' ∉ lit.data) (b : Bool) (sym : String)
    (h : '[' ∉ sym.data) :
    containsMark (lit ++ snapMark b ++ " — " ++ md_escape sym) = b := by
  have hpat : ("[snapshot]" : String).data = '[' :: "snapshot]".data := by decide
  cases b
  · unfold containsMark
    rw [hpat]
    apply containsSub_eq_false
    intro hmem
    simp only [snapMark, if_neg, String.data_append, List.mem_append] at hmem
    rcases hmem with ((hmem | hmem) | hmem) | hmem
    · exact hlit hmem
    · simp at hmem
    · exact absurd hmem (by decide)
    · exact lbrack_not_mem_md_escape sym h hmem
  · unfold containsMark
    have hsplit : (lit ++ snapMark true ++ " — " ++ md_escape sym).data
        = (lit.data ++ [' ']) ++
          ("[snapshot]".data ++ (" — ".data ++ (md_escape sym).data)) := by
      have hsp : (" [snapshot]" : String).data = ' ' :: "[snapshot]".data := by decide
      simp [snapMark, String.data_append, hsp, List.append_assoc]
    rw [hsplit]
    exact containsSub_append_left _ _ _ (containsSub_self_append _ _)

/-- The New-order header never contains the marker when the shown
account label is bracket-free. -/
theorem containsMark_new (x : String) (hx : '[' ∉ x.data) :
    containsMark ("🆕 *New order* - " ++ x) = false := by
  have hpat : ("[snapshot]" : String).data = '[' :: "snapshot]".data := by decide
  unfold containsMark
  rw [hpat]
  apply containsSub_eq_false
  intro hmem
  rw [String.data_append, List.mem_append] at hmem
  rcases hmem with hmem | hmem
  · exact absurd hmem (by decide)
  · exact hx hmem

theorem lbrack_not_mem_laShown (la : Option String)
    (h : ∀ s, la = some s → '[' ∉ s.data) : '[' ∉ (laShown la).data := by
  cases la with
  | none => simp [laShown]
  | some s =>
    by_cases hs : s = ""
    · simp [laShown, hs]
    · simpa [laShown, hs] using lbrack_not_mem_md_escape s (h s rfl)

/-! ## C8: the snapshot marker -/

/-- C8 (counterexample): a New-order event on a snapshot message
(`initial = true`) is classified and emits a notification whose text
does not contain the `[snapshot]` marker — the New-order template has
no marker fragment — refuting "contains the marker if and only if the
initial flag is true". -/
theorem snapshot_marker_cex :
    (classifyEvent {} (some "Acct") true [] newEvt).1.map
      (fun n => containsMark n.headerText) = [false] ∧
    (classifyEvent {} (some "Acct") true [] newEvt).1.length = 1 := by
  decide

/-- C8 (amended): the `initial` flag changes neither the classification
(the emitted notification kinds are identical for `initial = true` and
`false`) nor the dedup bookkeeping (the resulting `filled_announced` is
identical); every non-New classified notification carries the snapshot
flag of its message, and its text contains the literal `[snapshot]`
marker exactly when that flag is set (for bracket-free symbol fields),
while a New-order text never contains the marker; a Canceled event
creates no dedup entry; and a Filled event whose order id is already
announced fires nothing, snapshot-marked or not. -/
theorem snapshot_marker_amended (cfg : WCfg) (la : Option String) (i : Bool)
    (filled : List String) (d : Rec) :
    ((classifyEvent cfg la true filled d).1.map Notif.kind =
      (classifyEvent cfg la false filled d).1.map Notif.kind) ∧
    ((classifyEvent cfg la true filled d).2 = (classifyEvent cfg la false filled d).2) ∧
    (∀ n ∈ (classifyEvent cfg la i filled d).1, n.kind ≠ NKind.newK → n.snapFlag = some i) ∧
    (∀ (b : Bool) (sym oid : String) (r : Option String), '[' ∉ sym.data →
      containsMark (Notif.headerText (.cancelled b sym oid r)) = b ∧
      containsMark (Notif.headerText (.fill b sym oid)) = b ∧
      containsMark (Notif.headerText (.filled b sym oid)) = b) ∧
    (∀ (la2 : Option String) (sym oid : String), (∀ s, la2 = some s → '[' ∉ s.data) →
      containsMark (Notif.headerText (.newOrder la2 sym oid)) = false) ∧
    (newCond d = false → cancelCond d = true → (classifyEvent cfg la i filled d).2 = filled) ∧
    (filled.contains (oidOf d) = true → countFilledK (classifyEvent cfg la i filled d).1 = 0) := by
  refine ⟨?_, ?_, ?_, ?_, ?_, ?_, ?_⟩
  · by_cases hp : passesFilters cfg d
    · by_cases hn : newCond d
      · simp [classifyEvent, hp, hn, Notif.kind]
      · by_cases hc : cancelCond d
        · simp [classifyEvent, hp, hn, hc, Notif.kind]
        · by_cases hf : fillCond cfg d <;> by_cases hd : filledCond filled d <;>
            simp [classifyEvent, hp, hn, hc, hf, hd, Notif.kind]
    · simp [classifyEvent, hp]
  · rw [classify_filled_set, classify_filled_set]
  · intro n hn hk
    by_cases hp : passesFilters cfg d
    · by_cases hnw : newCond d
      · simp [classifyEvent, hp, hnw] at hn
        simp [hn, Notif.kind] at hk
      · by_cases hc : cancelCond d
        · simp [classifyEvent, hp, hnw, hc] at hn
          simp [hn, Notif.snapFlag]
        · by_cases hf : fillCond cfg d
          · by_cases hd : filledCond filled d
            · simp [classifyEvent, hp, hnw, hc, hf, hd] at hn
              rcases hn with hn | hn <;> simp [hn, Notif.snapFlag]
            · simp [classifyEvent, hp, hnw, hc, hf, hd] at hn
              simp [hn, Notif.snapFlag]
          · by_cases hd : filledCond filled d
            · simp [classifyEvent, hp, hnw, hc, hf, hd] at hn
              simp [hn, Notif.snapFlag]
            · simp [classifyEvent, hp, hnw, hc, hf, hd] at hn
    · simp [classifyEvent, hp] at hn
  · intro b sym oid r h
    exact ⟨containsMark_marked "🚫 *Order Cancelled*" (by decide) b sym h,
      containsMark_marked "✅ *Fill*" (by decide) b sym h,
      containsMark_marked "🎯 *Order Filled*" (by decide) b sym h⟩
  · intro la2 sym oid h
    exact containsMark_new (laShown la2) (lbrack_not_mem_laShown la2 h)
  · intro hn hc
    by_cases hp : passesFilters cfg d <;> simp [classifyEvent, hp, hn, hc]
  · intro hmem
    rw [classify_filled_count]
    have hmem' : oidOf d ∈ filled := by simpa using hmem
    have hfc : filledCond filled d = false := by
      simp [filledCond, hmem']
    simp [announceCond, hfc]

/-- C8 (witness): the marker behaviour at concrete inputs — a
snapshot-marked Cancelled header shows the marker, a live one does not,
a snapshot Canceled event adds nothing to the dedup set, and a
snapshot-marked Filled event for an already-announced id fires zero
"Order Filled" notifications. -/
theorem snapshot_marker_witness :
    containsMark (Notif.headerText (.cancelled true "BTC-USD" "X2" (some "User requested")))
      = true ∧
    containsMark (Notif.headerText (.cancelled false "BTC-USD" "X2" none)) = false ∧
    (classifyEvent {} none true [] cancelReasonEvt).2 = [] ∧
    countFilledK (classifyEvent {} none true ["A"] filledEvt).1 = 0 := by
  refine ⟨((snapshot_marker_amended {} none true [] cancelReasonEvt).2.2.2.1
      true "BTC-USD" "X2" (some "User requested") (by decide)).1,
    ((snapshot_marker_amended {} none true [] cancelReasonEvt).2.2.2.1
      false "BTC-USD" "X2" none (by decide)).1,
    (snapshot_marker_amended {} none true [] cancelReasonEvt).2.2.2.2.2.1
      (by decide) (by decide),
    (snapshot_marker_amended {} none true ["A"] filledEvt).2.2.2.2.2.2 (by decide)⟩

/-! ## Lemmas about REST de-duplication -/

theorem alookup_append (k : String) (m m' : List (String × Rec)) :
    alookup k (m ++ m') =
      match alookup k m with
      | some v => some v
      | none => alookup k m' := by
  induction m with
  | nil => simp [alookup]
  | cons q qs ih =>
    by_cases hq : q.1 = k <;> simp [alookup, hq, ih]

theorem alookup_eq_none_of_not_any (k : String) (m : List (String × Rec))
    (h : m.any (fun p => p.1 = k) = false) : alookup k m = none := by
  induction m with
  | nil => rfl
  | cons q qs ih =>
    simp only [List.any_cons, Bool.or_eq_false_iff] at h
    have hq : q.1 ≠ k := by simpa using h.1
    simp [alookup, hq, ih h.2]

theorem alookup_replace (k : String) (o : Rec) (m : List (String × Rec))
    (hany : m.any (fun p => p.1 = k) = true) :
    alookup k (m.map (fun p => if p.1 = k then (k, o) else p)) = some o := by
  induction m with
  | nil => simp at hany
  | cons q qs ih =>
    by_cases hq : q.1 = k
    · simp [alookup, hq]
    · simp only [List.any_cons, Bool.or_eq_true] at hany
      rcases hany with hx | hx

      · exact absurd (by simpa using hx) hq
      · simp [alookup, hq, ih hx]

theorem alookup_map_other (k k' : String) (o : Rec) (m : List (String × Rec))
    (hk : k' ≠ k) :
    alookup k (m.map (fun p => if p.1 = k' then (k', o) else p)) = alookup k m := by
  induction m with
  | nil => rfl
  | cons q qs ih =>
    by_cases hq : q.1 = k'
    · have : q.1 ≠ k := by rw [hq]; exact hk
      simp [alookup, hq, hk, this, ih]
    · simp only [List.map_cons, if_neg hq]
      by_cases hqk : q.1 = k <;> simp [alookup, hqk, ih]

theorem alookup_dedupStep (m : List (String × Rec)) (o : Rec) (k : String) :
    alookup k (dedupStep m o) =
      if oidOfRow o = some k then some o else alookup k m := by
  unfold dedupStep
  cases ho : oidOfRow o with
  | none => simp
  | some k' =>
    cases hany : m.any (fun p => p.1 = k') with
    | true =>
      by_cases hk : k' = k
      · subst hk
        simp [hany, alookup_replace _ o m hany]
      · simp [hany, alookup_map_other k k' o m hk, hk]
    | false =>
      have hnone := alookup_eq_none_of_not_any k' m hany
      by_cases hk : k' = k
      · subst hk
        simp [hany, alookup_append, hnone, alookup]
      · have hsing : alookup k [(k', o)] = none := by simp [alookup, hk]
        simp only [hany, Bool.false_eq_true, if_false]
        rw [if_neg (fun h => hk (Option.some.inj h)), alookup_append, hsing]
        cases hm : alookup k m <;> simp

theorem alookup_dedup_fold (rows : List Rec) (m : List (String × Rec)) (k : String) :
    alookup k (rows.foldl dedupStep m) =
      match lastWithKey k rows with
      | some v => some v
      | none => alookup k m := by
  induction rows generalizing m with
  | nil => simp [lastWithKey]
  | cons o rest ih =>
    rw [List.foldl_cons, ih, lastWithKey]
    cases hrest : lastWithKey k rest with
    | some v => simp
    | none =>
      rw [alookup_dedupStep]
      by_cases hc : oidOfRow o = some k <;> simp [hc]

theorem dedup_entries_wf (rows : List Rec) (m : List (String × Rec))
    (hm : ∀ p ∈ m, oidOfRow p.2 = some p.1) :
    ∀ p ∈ rows.foldl dedupStep m, oidOfRow p.2 = some p.1 := by
  induction rows generalizing m with
  | nil => exact hm
  | cons o rest ih =>
    rw [List.foldl_cons]
    refine ih _ ?_
    intro p hp
    unfold dedupStep at hp
    cases ho : oidOfRow o with
    | none => exact hm p (by rwa [ho] at hp)
    | some k =>
      rw [ho] at hp
      cases hany : m.any (fun q => q.1 = k) with
      | true =>
        simp only [hany, if_true, List.mem_map] at hp
        obtain ⟨q, hq, rfl⟩ := hp
        by_cases hqk : q.1 = k
        · simp [hqk, ho]
        · simpa [hqk] using hm q hq
      | false =>
        simp only [hany, Bool.false_eq_true, if_false, List.mem_append] at hp
        rcases hp with hp | hp
        · exact hm p hp
        · simp only [List.mem_singleton] at hp
          simp [hp, ho]

theorem dedup_keys_nodup (rows : List Rec) (m : List (String × Rec))
    (hm : (m.map Prod.fst).Nodup) :
    ((rows.foldl dedupStep m).map Prod.fst).Nodup := by
  induction rows generalizing m with
  | nil => exact hm
  | cons o rest ih =>
    rw [List.foldl_cons]
    refine ih _ ?_
    unfold dedupStep
    cases ho : oidOfRow o with
    | none => exact hm
    | some k =>
      cases hany : m.any (fun q => q.1 = k) with
      | true =>
        simp only [hany, if_true]
        have : (m.map (fun p => if p.1 = k then (k, o) else p)).map Prod.fst
            = m.map Prod.fst := by
          rw [List.map_map]
          apply List.map_congr_left
          intro p _
          by_cases hp : p.1 = k <;> simp [hp]
        rwa [this]
      | false =>
        simp only [hany, Bool.false_eq_true, if_false, List.map_append]
        rw [List.nodup_append]
        refine ⟨hm, by simp, ?_⟩
        intro a ha hb
        simp only [List.map_cons, List.map_nil, List.mem_singleton] at hb
        rw [List.mem_map] at ha
        obtain ⟨p, hp, rfl⟩ := ha
        have : m.any (fun q => q.1 = k) = true :=
          List.any_eq_true.2 ⟨p, hp, by simpa using hb⟩
        rw [this] at hany
        exact absurd hany (by simp)

theorem alookup_eq_of_mem_nodup (m : List (String × Rec))
    (hn : (m.map Prod.fst).Nodup) (k : String) (v : Rec) (hm : (k, v) ∈ m) :
    alookup k m = some v := by
  induction m with
  | nil => simp at hm
  | cons q qs ih =>
    rw [List.map_cons, List.nodup_cons] at hn
    rcases List.mem_cons.1 hm with hq | hq
    · simp [alookup, ← hq]
    · have hk : q.1 ≠ k := by
        intro hqk
        exact hn.1 (hqk ▸ List.mem_map_of_mem Prod.fst hq)
      simp [alookup, hk, ih hn.2 hq]

theorem mem_of_alookup (m : List (String × Rec)) (k : String) (v : Rec)
    (h : alookup k m = some v) : (k, v) ∈ m := by
  induction m with
  | nil => simp [alookup] at h
  | cons q qs ih =>
    by_cases hq : q.1 = k
    · rw [alookup, if_pos hq] at h
      have hqv : q = (k, v) := by
        obtain ⟨q1, q2⟩ := q
        simp only at hq h
        simp [hq, Option.some_inj.1 h]
      rw [hqv]
      exact List.mem_cons_self _ _
    · rw [alookup, if_neg hq] at h
      exact List.mem_cons_of_mem q (ih h)

/-- The row values surviving de-duplication are exactly, for each order
identifier, the last fetched row carrying that identifier. -/
theorem mem_dedup_values_iff (rows : List Rec) (o : Rec) :
    o ∈ (dedupRows rows).map (fun p => p.2) ↔
      ∃ k, oidOfRow o = some k ∧ lastWithKey k rows = some o := by
  constructor
  · intro h
    rw [List.mem_map] at h
    obtain ⟨p, hp, rfl⟩ := h
    have hwf := dedup_entries_wf rows [] (by simp) p (by simpa [dedupRows] using hp)
    refine ⟨p.1, hwf, ?_⟩
    have hnd := dedup_keys_nodup rows [] (by simp)
    have hl : alookup p.1 (List.foldl dedupStep [] rows) = some p.2 :=
      alookup_eq_of_mem_nodup _ hnd p.1 p.2 (by simpa [dedupRows] using hp)
    have := alookup_dedup_fold rows [] p.1
    rw [hl] at this
    cases hlast : lastWithKey p.1 rows with
    | none => rw [hlast] at this; simp [alookup] at this
    | some v => rw [hlast] at this; simpa using this.symm
  · intro ⟨k, hoid, hlast⟩
    have := alookup_dedup_fold rows [] k
    rw [hlast] at this
    exact List.mem_map.2 ⟨(k, o), mem_of_alookup _ k o this, rfl⟩

/-! ## Lemmas about the sort order -/

theorem keyLE_iff (a b : String × String × String) :
    keyLE a b = true ↔
      a.1 < b.1 ∨ (a.1 = b.1 ∧
        (a.2.1 < b.2.1 ∨ (a.2.1 = b.2.1 ∧ a.2.2 ≤ b.2.2))) := by
  unfold keyLE
  by_cases h1 : a.1 = b.1
  · by_cases h2 : a.2.1 = b.2.1
    · simp [h1, h2]
    · simp [h1, h2]
  · simp [h1]

theorem keyLE_total (a b : String × String × String) :
    keyLE a b = true ∨ keyLE b a = true := by
  rw [keyLE_iff, keyLE_iff]
  rcases lt_trichotomy a.1 b.1 with h | h | h
  · exact Or.inl (Or.inl h)
  · rcases lt_trichotomy a.2.1 b.2.1 with h2 | h2 | h2
    · exact Or.inl (Or.inr ⟨h, Or.inl h2⟩)
    · rcases le_total a.2.2 b.2.2 with h3 | h3
      · exact Or.inl (Or.inr ⟨h, Or.inr ⟨h2, h3⟩⟩)
      · exact Or.inr (Or.inr ⟨h.symm, Or.inr ⟨h2.symm, h3⟩⟩)
    · exact Or.inr (Or.inr ⟨h.symm, Or.inl h2⟩)
  · exact Or.inr (Or.inl h)

theorem keyLE_trans (a b c : String × String × String)
    (hab : keyLE a b = true) (hbc : keyLE b c = true) : keyLE a c = true := by
  rw [keyLE_iff] at hab hbc ⊢
  rcases hab with h | ⟨h1, h⟩
  · rcases hbc with g | ⟨g1, g⟩
    · exact Or.inl (lt_trans h g)
    · exact Or.inl (lt_of_lt_of_eq h g1)
  · rcases hbc with g | ⟨g1, g⟩
    · exact Or.inl (lt_of_eq_of_lt h1 g)
    · refine Or.inr ⟨h1.trans g1, ?_⟩
      rcases h with h2 | ⟨h2, h3⟩
      · rcases g with g2 | ⟨g2, g3⟩
        · exact Or.inl (lt_trans h2 g2)
        · exact Or.inl (lt_of_lt_of_eq h2 g2)
      · rcases g with g2 | ⟨g2, g3⟩
        · exact Or.inl (lt_of_eq_of_lt h2 g2)
        · exact Or.inr ⟨h2.trans g2, le_trans h3 g3⟩

theorem rowLE_total (a b : Rec) : rowLE a b = true ∨ rowLE b a = true :=
  keyLE_total (sortKeyRow a) (sortKeyRow b)

theorem rowLE_trans (a b c : Rec) (hab : rowLE a b = true) (hbc : rowLE b c = true) :
    rowLE a c = true :=
  keyLE_trans (sortKeyRow a) (sortKeyRow b) (sortKeyRow c) hab hbc

theorem pairwise_insertRow (x : Rec) (l : List Rec)
    (hl : List.Pairwise (fun a b => rowLE a b = true) l) :
    List.Pairwise (fun a b => rowLE a b = true) (insertRow x l) := by
  induction l with
  | nil => simp [insertRow]
  | cons y ys ih =>
    rw [List.pairwise_cons] at hl
    obtain ⟨hy, hys⟩ := hl
    by_cases h : rowLE x y = true
    · rw [insertRow, if_pos h]
      refine List.Pairwise.cons ?_ (List.Pairwise.cons hy hys)
      intro z hz
      rcases List.mem_cons.1 hz with rfl | hz
      · exact h
      · exact rowLE_trans x y z h (hy z hz)
    · rw [insertRow, if_neg h]
      refine List.Pairwise.cons ?_ (ih hys)
      intro z hz
      have hz' : z = x ∨ z ∈ ys := List.mem_cons.1 ((insertRow_perm x ys).mem_iff.1 hz)
      rcases hz' with hzx | hz'
      · rw [hzx]
        rcases rowLE_total x y with ht | ht
        · exact absurd ht h
        · exact ht
      · exact hy z hz'

theorem sortRows_pairwise (l : List Rec) :
    List.Pairwise (fun a b => rowLE a b = true) (sortRows l) := by
  induction l with
  | nil => simp [sortRows]
  | cons x xs ih => exact pairwise_insertRow x (sortRows xs) ih

/-! ## C5: REST de-dup, filter, sort -/

/-- C5: a row is in the result of `list_open_orders` exactly when it is
the last fetched row for its order identifier, its stripped status is in
the requested set, its leaves quantity is strictly positive, and its
user is not excluded; the result is sorted by (account, symbol, side);
and in the three-row scenario where order `A1` appears early as New and
later as Filled with zero leaves, `A1` is absent from the result. -/
theorem rest_dedup_filter_sort (rows : List Rec) (statuses : Option (List String))
    (excludeUsers : List String) (o : Rec) :
    (o ∈ listOpenOrdersPost rows statuses excludeUsers ↔
      (∃ k, oidOfRow o = some k ∧ lastWithKey k rows = some o) ∧
      is_excluded (excludeUsers.map pyUpper) o = false ∧
      is_live (statusesEff statuses) o = true) ∧
    List.Pairwise (fun a b => rowLE a b = true)
      (listOpenOrdersPost rows statuses excludeUsers) ∧
    listOpenOrdersPost [rowA1New, rowB7, rowA1Filled] none [] = [rowB7] := by
  refine ⟨?_, sortRows_pairwise _, by decide⟩
  rw [listOpenOrdersPost, mem_sortRows, List.mem_filter, mem_dedup_values_iff,
    Bool.and_eq_true, Bool.not_eq_true']

/-- C9: a fetched row that carries none of the three order-identifier
fields is dropped during de-duplication and never appears in the output,
whatever its status, leaves quantity or user. -/
theorem rows_without_id_dropped (rows : List Rec) (statuses : Option (List String))
    (excludeUsers : List String) (o : Rec) (h : oidOfRow o = none) :
    o ∉ listOpenOrdersPost rows statuses excludeUsers := by
  intro hmem
  rw [listOpenOrdersPost, mem_sortRows, List.mem_filter, mem_dedup_values_iff] at hmem
  obtain ⟨⟨k, hk, _⟩, _⟩ := hmem
  rw [h] at hk
  exact Option.noConfusion hk

/-- C9 (witness): a concrete identifier-less row is absent from the
result even though its status and leaves quantity qualify, while a row
with an identifier survives. -/
theorem rows_without_id_dropped_witness :
    rowNoId ∉ listOpenOrdersPost [rowNoId, rowB7] none [] ∧
    rowB7 ∈ listOpenOrdersPost [rowNoId, rowB7] none [] := by
  refine ⟨rows_without_id_dropped [rowNoId, rowB7] none [] rowNoId (by decide), by decide⟩

/-! ## C6: REST pagination -/

theorem fetchGo_characterization (srv : Nat → PageResp) (n : Nat) :
    ∀ (fuel start : Nat),
    (∀ i, i < n → contPage (srv (start + i)) = true) →
    contPage (srv (start + n)) = false →
    n < fuel →
    fetchGo srv fuel start =
      (((List.range (n + 1)).map (fun i => pageRows (srv (start + i)))).flatten, n + 1) := by
  induction n with
  | zero =>
    intro fuel start hcont hstop hfuel
    cases fuel with
    | zero => omega
    | succ f =>
      rw [fetchGo]
      rw [Nat.add_zero] at hstop
      have h1 : List.range 1 = [0] := rfl
      simp [hstop, h1]
  | succ n ih =>
    intro fuel start hcont hstop hfuel
    cases fuel with
    | zero => omega
    | succ f =>
      have h0 : contPage (srv start) = true := by
        have := hcont 0 (by omega)
        simpa using this
      have hrec := ih f (start + 1)
        (fun i hi => by
          have h := hcont (i + 1) (by omega)
          rwa [show start + (i + 1) = start + 1 + i by omega] at h)
        (by
          have h := hstop
          rwa [show start + (n + 1) = start + 1 + n by omega] at h)
        (by omega)
      have hlist : pageRows (srv start) ++
          ((List.range (n + 1)).map (fun i => pageRows (srv (start + 1 + i)))).flatten
          = ((List.range (n + 1 + 1)).map (fun i => pageRows (srv (start + i)))).flatten := by
        conv_rhs => rw [List.range_succ_eq_map]
        rw [List.map_cons, List.flatten_cons, List.map_map]
        simp only [Nat.add_zero]
        congr 1
        refine congrArg List.flatten (List.map_congr_left ?_)
        intro i _
        simp only [Function.comp_apply]
        congr 2
        omega
      rw [fetchGo, if_pos h0, hrec]
      refine Prod.ext ?_ ?_
      · exact hlist
      · rfl

set_option maxRecDepth 4000 in
/-- C6: the pagination loop requests a further page exactly while the
response is an object with a truthy cursor (`next` falling back to
`after`) and a non-empty data array; a bare-array response is a single
terminal page; and the 500-rows-then-3-rows scenario accumulates
exactly 503 raw rows in two requests. -/
theorem pagination_cursor_loop :
    (∀ (srv : Nat → PageResp) (n fuel start : Nat),
      (∀ i, i < n → contPage (srv (start + i)) = true) →
      contPage (srv (start + n)) = false →
      n < fuel →
      fetchGo srv fuel start =
        (((List.range (n + 1)).map (fun i => pageRows (srv (start + i)))).flatten, n + 1)) ∧
    (∀ p : PageResp, contPage p = true ↔
      ∃ rows nxt aft, p = .obj rows nxt aft ∧
        (firstTruthy [nxt, aft]).isSome = true ∧ rows ≠ []) ∧
    (fetchAll srvTwoPages 10).1.length = 503 ∧ (fetchAll srvTwoPages 10).2 = 2 := by
  refine ⟨fun srv n fuel start => fetchGo_characterization srv n fuel start, ?_, by decide, by decide⟩
  intro p
  cases p with
  | obj rows nxt aft =>
    constructor
    · intro h
      rw [contPage, Bool.and_eq_true] at h
      exact ⟨rows, nxt, aft, rfl, h.1, by simpa using h.2⟩
    · intro ⟨rows', nxt', aft', heq, h1, h2⟩
      cases heq
      rw [contPage, Bool.and_eq_true]
      exact ⟨h1, by simpa using h2⟩
  | arr rows => simp [contPage]
  | other => simp [contPage]

/-- C6 (witness): the characterization applied to the concrete two-page
server: one continuation, two requests. -/
theorem pagination_cursor_loop_witness :
    fetchGo srvTwoPages 10 0 =
      (((List.range 2).map (fun i => pageRows (srvTwoPages (0 + i)))).flatten, 2) := by
  refine pagination_cursor_loop.1 srvTwoPages 1 10 0 ?_ (by decide) (by decide)
  intro i hi
  have hi0 : i = 0 := by omega
  rw [hi0]
  decide

/-! ## C2: request signing -/

set_option maxRecDepth 100000 in
/-- C2 (counterexample): the two clients do not sign identically for
every secret and path. The stream client strips the secret before
signing while the REST client does not, so a secret carrying a trailing
space produces different signatures for otherwise identical inputs; and
for an empty path the stream client signs the substituted default
`"/ws/v1"`, so its signature differs from the claimed
base64url-HMAC of the canonical string built from the given path. -/
theorem signing_cex :
    headers_sign "tal-1.example.com" "/ws/v1" "sek " "2024-01-01T00:00:00.000000Z"
      ≠ sign_headers_sign "tal-1.example.com" "GET" "/ws/v1" "" "sek "
          "2024-01-01T00:00:00.000000Z" ∧
    headers_sign "tal-1.example.com" "" "sek" "2024-01-01T00:00:00.000000Z"
      ≠ sign_spec "GET" "2024-01-01T00:00:00.000000Z" "tal-1.example.com" "" "" "sek" := by
  decide

/-- C2 (amended): for every method, timestamp, host, path, query and
secret — the secret free of surrounding whitespace and the path
non-empty — both clients' signatures equal the URL-safe padded base64
of HMAC-SHA256 over the ASCII-encoded secret and the canonical string
`[METHOD, TIMESTAMP, HOST, PATH]` newline-joined, with the query
appended as a fifth line exactly when non-empty (`sign_spec`, written
from the spec's words; a non-ASCII secret or field makes both sides the
same encoding failure); and on identical inputs (method GET, no query)
the streaming handshake and the REST page request produce identical
signatures. -/
theorem signing_amended (method ts host path query secret : String)
    (hsec : pyStrip secret = secret) (hpath : path ≠ "") :
    sign_headers_sign host method path query secret ts
      = sign_spec (pyUpper method) ts host path query secret ∧
    headers_sign host path secret ts = sign_spec "GET" ts host path "" secret ∧
    headers_sign host path secret ts
      = sign_headers_sign host "GET" path "" secret ts := by
  have hG : pyUpper "GET" = "GET" := rfl
  refine ⟨?_, ?_, ?_⟩
  · by_cases hq : query = "" <;>
      simp [sign_headers_sign, sign_spec, signB64, restPayload, hq]
  · simp [headers_sign, sign_spec, signB64, hsec, hpath]
  · simp [headers_sign, sign_headers_sign, sign_spec, signB64, restPayload, hsec, hpath, hG]

/-- C2 (witness): the amended signing theorem at concrete inputs. -/
theorem signing_amended_witness :
    headers_sign "tal-1.example.com" "/ws/v1" "sek" "2024-01-01T00:00:00.000000Z"
      = sign_headers_sign "tal-1.example.com" "GET" "/ws/v1" "" "sek"
          "2024-01-01T00:00:00.000000Z" :=
  (signing_amended "GET" "2024-01-01T00:00:00.000000Z" "tal-1.example.com" "/ws/v1" ""
    "sek" (by decide) (by decide)).2.2

end Talos

